import Mathlib

/-!
Verification of the in-memory User CRUD core (`src/user_crud/models.py` and
`src/user_crud/crud.py`) against its natural-language specification.

The Python code is shallowly embedded:
stateful methods of `UserCRUD` become functions threading an explicit
`CrudState`; `datetime.now()` is modelled by a monotone `clock : Nat` counter
carried in the state; `uuid.uuid4()` is modelled by an injective supply of
fresh non-empty string identifiers indexed by a counter; Python `str.strip()`
and `str.lower()` are modelled over the character list of a `String`
(`Char.isWhitespace` standing for Python's whitespace class and
`Char.toLower` for Python's per-character lowercasing); `ValueError` raised
by the code becomes an `Except Err` result, split into the two error kinds
the specification names (`InvalidField` from entity validation,
`DuplicateEmail` from the manager's uniqueness scans).
-/

/-- Model of Python `str.strip()` applied to the leading side of a character
list: drop the longest whitespace prefix. -/
def wsDrop (l : List Char) : List Char := l.dropWhile Char.isWhitespace

/-- Drop the longest whitespace suffix of a character list. -/
def wsDropEnd (l : List Char) : List Char := (wsDrop l.reverse).reverse

/-- Model of Python `str.strip()` on a character list: drop whitespace from
both ends. -/
def stripList (l : List Char) : List Char := wsDropEnd (wsDrop l)

/-- Model of Python `str.strip()`. -/
def pyStrip (s : String) : String := ⟨stripList s.data⟩

/-- Model of Python `str.lower()` on a character list. -/
def lowerList (l : List Char) : List Char := l.map Char.toLower

/-- Model of Python `str.lower()`. -/
def pyLower (s : String) : String := ⟨lowerList s.data⟩

/-- Email normalization used throughout the code: `email.strip().lower()`. -/
def normEmail (s : String) : String := pyLower (pyStrip s)

/-- Error kinds of the core, as the specification classifies the
`ValueError`s raised by the Python code: `invalidField` from entity
validation in `User.__post_init__`, `duplicateEmail` from the uniqueness
scans in `UserCRUD.create` and `UserCRUD.update`. The payload carries the
human-readable message (for `invalidField`) or the conflicting normalized
email (for `duplicateEmail`). -/
inductive Err where
  | invalidField : String → Err
  | duplicateEmail : String → Err
deriving DecidableEq, Repr

/-- The `User` dataclass of `src/user_crud/models.py`. Timestamps are
modelled as ticks of the manager's logical clock. -/
structure User where
  id : String
  name : String
  email : String
  age : Int
  created_at : Nat
  updated_at : Option Nat
deriving DecidableEq, Repr

deriving instance DecidableEq for Except

/-- Validation of `User.__post_init__`: empty (or whitespace-only) name,
email lacking an at-sign (or empty), or age outside [0, 150] each raise,
in this order, with the message of the Python code. -/
def User.validate (u : User) : Option Err :=
  if u.name = "" ∨ pyStrip u.name = "" then
    some (Err.invalidField ("El nombre no puede estar vacío"))
  else if u.email = "" ∨ ¬ ('@' ∈ u.email.data) then
    some (Err.invalidField ("Email inválido"))
  else if u.age < 0 ∨ 150 < u.age then
    some (Err.invalidField ("La edad debe estar entre 0 y 150 años"))
  else none

/-- Constructing `User(**data)`: build the record, then run
`__post_init__` validation. -/
def User.mkChecked (id name email : String) (age : Int) (created : Nat)
    (updated : Option Nat) : Except Err User :=
  match User.validate { id := id, name := name, email := email, age := age,
                        created_at := created, updated_at := updated } with
  | some e => Except.error e
  | none => Except.ok { id := id, name := name, email := email, age := age,
                        created_at := created, updated_at := updated }

/-- The factory `User.create`: trims the name, trims and lowercases the
email, generates an id, sets `created_at`, leaves `updated_at` unset. -/
def User.create (id : String) (now : Nat) (name email : String) (age : Int) :
    Except Err User :=
  User.mkChecked id (pyStrip name) (normEmail email) age now none

/-- The recognized keyword arguments of `User.update` and
`UserCRUD.update`, restricted to the allowed fields name/email/age
(unrecognized keyword arguments are ignored by the code, so they are not
represented). -/
structure UpdateFields where
  name : Option String
  email : Option String
  age : Option Int
deriving DecidableEq, Repr

/-- The method `User.update` of `models.py`: if no recognized field is
supplied, return the entity unchanged; otherwise merge supplied values over
existing ones (without any re-normalization, exactly as the code does),
keep `id`/`created_at`, set `updated_at` to the current time, and validate
the merged record. -/
def User.update (u : User) (f : UpdateFields) (now : Nat) : Except Err User :=
  if f.name = none ∧ f.email = none ∧ f.age = none then Except.ok u
  else
    User.mkChecked u.id (f.name.getD u.name) (f.email.getD u.email)
      (f.age.getD u.age) u.created_at (some now)

/-- Lookup in the insertion-ordered association list modelling the Python
dict `self._users`. -/
def dictGet : List (String × User) → String → Option User
  | [], _ => none
  | p :: t, k => if p.1 = k then some p.2 else dictGet t k

/-- Assignment `d[k] = v` on the Python dict model: replace in place if the
key is present, append otherwise. -/
def dictSet : List (String × User) → String → User → List (String × User)
  | [], k, v => [(k, v)]
  | p :: t, k, v => if p.1 = k then (k, v) :: t else p :: dictSet t k v

/-- Deletion `del d[k]` on the Python dict model. -/
def dictDel : List (String × User) → String → List (String × User)
  | [], _ => []
  | p :: t, k => if p.1 = k then t else p :: dictDel t k

/-- Model of `uuid.uuid4()`: an injective supply of fresh non-empty string
identifiers, indexed by a counter carried in the manager state. -/
def uuid4 (n : Nat) : String := ⟨List.replicate (n + 1) ('u')⟩

/-- State of a `UserCRUD` instance: the id-keyed collection plus the
counters backing the `uuid.uuid4()` and `datetime.now()` effects. -/
structure CrudState where
  users : List (String × User)
  nextId : Nat
  clock : Nat
deriving DecidableEq, Repr

/-- The state of a freshly constructed `UserCRUD()`. -/
def emptyCrud : CrudState := { users := [], nextId := 0, clock := 0 }

/-- The method `UserCRUD.create`: build the candidate via the factory, scan
stored entities for a raw-email match with the candidate's normalized
email, then insert. Errors leave the state untouched (the Python method
raises before any mutation). -/
def UserCRUD.create (σ : CrudState) (name email : String) (age : Int) :
    Except Err User × CrudState :=
  match User.create (uuid4 σ.nextId) σ.clock name email age with
  | Except.error e => (Except.error e, σ)
  | Except.ok u =>
    if σ.users.any (fun p => p.2.email == u.email) then
      (Except.error (Err.duplicateEmail u.email), σ)
    else
      (Except.ok u, { σ with users := dictSet σ.users u.id u,
                             nextId := σ.nextId + 1, clock := σ.clock + 1 })

/-- The method `UserCRUD.get_by_id`: direct dict lookup. -/
def UserCRUD.get_by_id (σ : CrudState) (uid : String) : Option User :=
  dictGet σ.users uid

/-- The method `UserCRUD.get_by_email`: normalize the query, return the
first stored entity whose raw email equals it. -/
def UserCRUD.get_by_email (σ : CrudState) (email : String) : Option User :=
  (σ.users.find? (fun p => p.2.email == normEmail email)).map Prod.snd

/-- The method `UserCRUD.get_all`. -/
def UserCRUD.get_all (σ : CrudState) : List User := σ.users.map Prod.snd

/-- Tail of `UserCRUD.update` after the duplicate check: delegate to
`User.update`, store the result under the same key on success. -/
def UserCRUD.applyUpdate (σ : CrudState) (uid : String) (u : User)
    (f : UpdateFields) : Except Err (Option User) × CrudState :=
  match User.update u f σ.clock with
  | Except.error e => (Except.error e, σ)
  | Except.ok u2 =>
    (Except.ok (some u2), { σ with users := dictSet σ.users uid u2,
                                   clock := σ.clock + 1 })

/-- The method `UserCRUD.update`: absent id gives `none` (no error); if an
email is supplied, scan the *other* entities for a raw-email match with the
normalized new email before delegating to the entity update. -/
def UserCRUD.update (σ : CrudState) (uid : String) (f : UpdateFields) :
    Except Err (Option User) × CrudState :=
  match dictGet σ.users uid with
  | none => (Except.ok none, σ)
  | some u =>
    match f.email with
    | some e =>
      if σ.users.any (fun p => (p.1 != uid) && (p.2.email == normEmail e)) then
        (Except.error (Err.duplicateEmail (normEmail e)), σ)
      else UserCRUD.applyUpdate σ uid u f
    | none => UserCRUD.applyUpdate σ uid u f

/-- The method `UserCRUD.delete`: remove the key if present, report whether
it was present. -/
def UserCRUD.delete (σ : CrudState) (uid : String) : Bool × CrudState :=
  if σ.users.any (fun p => p.1 == uid) then
    (true, { σ with users := dictDel σ.users uid })
  else (false, σ)

/-- The method `UserCRUD.count`. -/
def UserCRUD.count (σ : CrudState) : Nat := σ.users.length

/-- The method `UserCRUD.clear`. -/
def UserCRUD.clear (σ : CrudState) : CrudState := { σ with users := [] }

/-- The method `UserCRUD.exists`: membership test on the keys. -/
def UserCRUD.existsId (σ : CrudState) (uid : String) : Bool :=
  σ.users.any (fun p => p.1 == uid)

/-- Manager states reachable from a freshly constructed `UserCRUD()` by any
sequence of create, update, delete and clear calls. -/
inductive Reachable : CrudState → Prop where
  | empty : Reachable emptyCrud
  | create {σ} (n e : String) (a : Int) : Reachable σ →
      Reachable (UserCRUD.create σ n e a).2
  | update {σ} (uid : String) (f : UpdateFields) : Reachable σ →
      Reachable (UserCRUD.update σ uid f).2
  | delete {σ} (uid : String) : Reachable σ →
      Reachable (UserCRUD.delete σ uid).2
  | clear {σ} : Reachable σ → Reachable (UserCRUD.clear σ)

/-- The list of normalized stored emails of a manager state. -/
def normEmails (σ : CrudState) : List String :=
  σ.users.map (fun p => normEmail p.2.email)

/-- First step of the bug-exhibiting trace: create a user with name A and
email a@x on a fresh manager. -/
def traceσ1 : CrudState := (UserCRUD.create emptyCrud ("A") ("a@x") 1).2

/-- Second step: update the stored user's email to the unnormalized
string " C@X"; the code stores it verbatim. -/
def traceσ2 : CrudState :=
  (UserCRUD.update traceσ1 (uuid4 0)
    { name := none, email := some (" C@X"), age := none }).2

/-- Third step: create a second user with email c@x, which the duplicate
scan does not flag because the first user's stored raw email is " C@X". -/
def traceσ3 : CrudState := (UserCRUD.create traceσ2 ("B") ("c@x") 2).2

/-- The first trace user as stored after the second step. -/
def traceUserA2 : User :=
  { id := uuid4 0, name := "A", email := " C@X", age := 1,
    created_at := 0, updated_at := some 1 }

/-- The second trace user as stored after the third step. -/
def traceUserB : User :=
  { id := uuid4 1, name := "B", email := "c@x", age := 2,
    created_at := 2, updated_at := none }

/-- Alternative third step for the update-duplicate scenario: create a
second user with email b@x instead. -/
def traceσ2b : CrudState := (UserCRUD.create traceσ2 ("B") ("b@x") 2).2

/-- The second user of the alternative trace as stored. -/
def traceUserBb : User :=
  { id := uuid4 1, name := "B", email := "b@x", age := 2,
    created_at := 2, updated_at := none }

/-- State after deleting the first trace user from `traceσ3`. -/
def c7σ : CrudState := (UserCRUD.delete traceσ3 (uuid4 0)).2

/-- A stored user used to exercise the entity-level update operation. -/
def c1User : User :=
  { id := uuid4 0, name := "Test User", email := "test@example.com", age := 25,
    created_at := 0, updated_at := none }

/-- A single-entity manager state used to instantiate proved theorems. -/
def wUser : User :=
  { id := uuid4 0, name := "W", email := "w@x", age := 1,
    created_at := 0, updated_at := none }

/-- The manager state holding exactly `wUser`. -/
def wState : CrudState := { users := [(uuid4 0, wUser)], nextId := 1, clock := 5 }

theorem char_shift_facts (n : Nat) (h1 : 65 ≤ n) (h2 : n ≤ 90) :
    (Char.ofNat (n + 32)).toNat = n + 32 ∧ (Char.ofNat (n + 32)).isWhitespace = false := by
  interval_cases n <;> exact (by decide)

theorem toLower_eq_of_le (c : Char) (h : 65 ≤ c.toNat ∧ c.toNat ≤ 90) :
    c.toLower = Char.ofNat (c.toNat + 32) := by
  unfold Char.toLower
  rw [if_pos]
  exact h

theorem toLower_eq_of_not (c : Char) (h : ¬ (65 ≤ c.toNat ∧ c.toNat ≤ 90)) :
    c.toLower = c := by
  unfold Char.toLower
  rw [if_neg]
  exact h

theorem toLower_toLower (c : Char) : c.toLower.toLower = c.toLower := by
  by_cases h : 65 ≤ c.toNat ∧ c.toNat ≤ 90
  · rw [toLower_eq_of_le c h]
    have hf := char_shift_facts c.toNat h.1 h.2
    apply toLower_eq_of_not
    rw [hf.1]
    omega
  · rw [toLower_eq_of_not c h, toLower_eq_of_not c h]

theorem isWhitespace_of_ge (c : Char) (h : 65 ≤ c.toNat) : c.isWhitespace = false := by
  have hs : c ≠ ' ' := by intro he; rw [he] at h; exact absurd h (by decide)
  have ht : c ≠ '\t' := by intro he; rw [he] at h; exact absurd h (by decide)
  have hr : c ≠ '\r' := by intro he; rw [he] at h; exact absurd h (by decide)
  have hn : c ≠ '\n' := by intro he; rw [he] at h; exact absurd h (by decide)
  simp [Char.isWhitespace, hs, ht, hr, hn]

theorem isWhitespace_toLower (c : Char) : c.toLower.isWhitespace = c.isWhitespace := by
  by_cases h : 65 ≤ c.toNat ∧ c.toNat ≤ 90
  · rw [toLower_eq_of_le c h, (char_shift_facts c.toNat h.1 h.2).2,
      isWhitespace_of_ge c h.1]
  · rw [toLower_eq_of_not c h]

theorem dropWhile_dropWhile (p : Char → Bool) (l : List Char) :
    (l.dropWhile p).dropWhile p = l.dropWhile p := by
  cases h : l.dropWhile p with
  | nil => simp
  | cons x t =>
    have hx := List.head?_dropWhile_not p l
    rw [h] at hx
    simp only [List.head?] at hx
    simp [List.dropWhile_cons, hx]

theorem wsDrop_wsDrop (l : List Char) : wsDrop (wsDrop l) = wsDrop l :=
  dropWhile_dropWhile Char.isWhitespace l

theorem wsDropEnd_cons (x : Char) (t : List Char) (hx : x.isWhitespace = false) :
    wsDropEnd (x :: t) = x :: wsDropEnd t := by
  unfold wsDropEnd wsDrop
  rw [List.reverse_cons, List.dropWhile_append]
  by_cases h : (t.reverse.dropWhile Char.isWhitespace).isEmpty
  · rw [if_pos h]
    rw [List.isEmpty_iff] at h
    rw [h]
    simp [List.dropWhile_cons, hx]
  · rw [if_neg h]
    simp

theorem wsDropEnd_wsDropEnd (l : List Char) : wsDropEnd (wsDropEnd l) = wsDropEnd l := by
  unfold wsDropEnd
  rw [List.reverse_reverse, wsDrop_wsDrop]

theorem head_not_ws_of_wsDrop (l : List Char) (x : Char) (t : List Char)
    (h : wsDrop l = x :: t) : x.isWhitespace = false := by
  have hx := List.head?_dropWhile_not Char.isWhitespace l
  unfold wsDrop at h
  rw [h] at hx
  simpa [List.head?] using hx

theorem stripList_idem (l : List Char) : stripList (stripList l) = stripList l := by
  unfold stripList
  cases h : wsDrop l with
  | nil => rfl
  | cons x t =>
    have hx : x.isWhitespace = false := head_not_ws_of_wsDrop l x t h
    rw [wsDropEnd_cons x t hx]
    have h2 : wsDrop (x :: wsDropEnd t) = x :: wsDropEnd t := by
      unfold wsDrop
      simp [List.dropWhile_cons, hx]
    rw [h2, wsDropEnd_cons x (wsDropEnd t) hx, wsDropEnd_wsDropEnd]

theorem wsDrop_lower (l : List Char) : wsDrop (lowerList l) = lowerList (wsDrop l) := by
  unfold wsDrop lowerList
  rw [List.dropWhile_map]
  have : (Char.isWhitespace ∘ Char.toLower) = Char.isWhitespace := by
    funext c
    exact isWhitespace_toLower c
  rw [this]

theorem wsDropEnd_lower (l : List Char) :
    wsDropEnd (lowerList l) = lowerList (wsDropEnd l) := by
  unfold wsDropEnd
  have h1 : (lowerList l).reverse = lowerList l.reverse := by
    unfold lowerList
    rw [List.map_reverse]
  rw [h1, wsDrop_lower]
  unfold lowerList
  rw [List.map_reverse]

theorem stripList_lower (l : List Char) :
    stripList (lowerList l) = lowerList (stripList l) := by
  unfold stripList
  rw [wsDrop_lower, wsDropEnd_lower]

theorem lowerList_lowerList (l : List Char) : lowerList (lowerList l) = lowerList l := by
  unfold lowerList
  rw [List.map_map]
  have : (Char.toLower ∘ Char.toLower) = Char.toLower := by
    funext c
    exact toLower_toLower c
  rw [this]

theorem pyStrip_data (s : String) : (pyStrip s).data = stripList s.data := rfl

theorem pyStrip_idem (s : String) : pyStrip (pyStrip s) = pyStrip s := by
  unfold pyStrip
  rw [show (String.mk (stripList s.data)).data = stripList s.data from rfl,
    stripList_idem]

theorem normEmail_data (s : String) : (normEmail s).data = lowerList (stripList s.data) := rfl

theorem normEmail_idem (s : String) : normEmail (normEmail s) = normEmail s := by
  unfold normEmail pyLower pyStrip
  apply congrArg String.mk
  rw [show (String.mk (lowerList (stripList s.data))).data = lowerList (stripList s.data) from rfl]
  rw [show (String.mk (stripList s.data)).data = stripList s.data from rfl]
  rw [stripList_lower, lowerList_lowerList, stripList_idem]

theorem mem_wsDrop (l : List Char) (a : Char) (ha : a.isWhitespace = false)
    (h : a ∈ l) : a ∈ wsDrop l := by
  unfold wsDrop
  have := List.takeWhile_append_dropWhile Char.isWhitespace l
  rw [← this] at h
  rcases List.mem_append.1 h with h1 | h2
  · have := List.mem_takeWhile_imp h1
    rw [ha] at this
    exact absurd this (by simp)
  · exact h2

theorem mem_stripList (l : List Char) (a : Char) (ha : a.isWhitespace = false)
    (h : a ∈ l) : a ∈ stripList l := by
  unfold stripList wsDropEnd
  rw [List.mem_reverse]
  apply mem_wsDrop _ _ ha
  rw [List.mem_reverse]
  exact mem_wsDrop _ _ ha h

theorem at_mem_normEmail (s : String) (h : '@' ∈ s.data) : '@' ∈ (normEmail s).data := by
  rw [normEmail_data]
  unfold lowerList
  have h2 : '@' ∈ stripList s.data := mem_stripList _ _ (by decide) h
  have h3 : Char.toLower '@' = '@' := by decide
  rw [← h3]
  exact List.mem_map_of_mem Char.toLower h2

theorem dictGet_dictSet_self (l : List (String × User)) (k : String) (v : User) :
    dictGet (dictSet l k v) k = some v := by
  induction l with
  | nil => simp [dictSet, dictGet]
  | cons p t ih =>
    by_cases h : p.1 = k
    · simp [dictSet, dictGet, h]
    · simp [dictSet, dictGet, h, ih]

theorem dictSet_self_of_get (l : List (String × User)) (k : String) (v : User)
    (h : dictGet l k = some v) : dictSet l k v = l := by
  induction l with
  | nil => simp [dictGet] at h
  | cons p t ih =>
    obtain ⟨pk, pv⟩ := p
    by_cases hp : pk = k
    · simp [dictGet, hp] at h
      simp [dictSet, hp, h]
    · simp [dictGet, hp] at h
      simp [dictSet, hp, ih h]

theorem dictGet_of_forall_ne (l : List (String × User)) (k : String)
    (h : ∀ p ∈ l, p.1 ≠ k) : dictGet l k = none := by
  induction l with
  | nil => rfl
  | cons p t ih =>
    have hp : p.1 ≠ k := h p (List.mem_cons_self p t)
    simp only [dictGet, if_neg hp]
    exact ih (fun q hq => h q (List.mem_cons_of_mem p hq))

theorem dictGet_some_mem (l : List (String × User)) (k : String) (v : User)
    (h : dictGet l k = some v) : (k, v) ∈ l := by
  induction l with
  | nil => simp [dictGet] at h
  | cons p t ih =>
    obtain ⟨pk, pv⟩ := p
    by_cases hp : pk = k
    · simp [dictGet, hp] at h
      rw [← hp, ← h]
      exact List.mem_cons_self _ t
    · simp [dictGet, hp] at h
      exact List.mem_cons_of_mem _ (ih h)

theorem dictSet_of_get_none (l : List (String × User)) (k : String) (v : User)
    (h : dictGet l k = none) : dictSet l k v = l ++ [(k, v)] := by
  induction l with
  | nil => rfl
  | cons p t ih =>
    by_cases hp : p.1 = k
    · simp [dictGet, hp] at h
    · simp only [dictGet, if_neg hp] at h
      simp [dictSet, hp, ih h]

theorem dictGet_append_right (l1 l2 : List (String × User)) (k : String)
    (h : dictGet l1 k = none) : dictGet (l1 ++ l2) k = dictGet l2 k := by
  induction l1 with
  | nil => rfl
  | cons p t ih =>
    by_cases hp : p.1 = k
    · simp [dictGet, hp] at h
    · simp only [dictGet, if_neg hp] at h
      simp only [List.cons_append, dictGet, if_neg hp]
      exact ih h

theorem mem_dictSet (l : List (String × User)) (k : String) (v : User)
    (p : String × User) (h : p ∈ dictSet l k v) : p = (k, v) ∨ p ∈ l := by
  induction l with
  | nil => simp [dictSet] at h; left; exact h
  | cons q t ih =>
    by_cases hq : q.1 = k
    · simp only [dictSet, if_pos hq] at h
      rcases List.mem_cons.1 h with h1 | h2
      · left; exact h1
      · right; exact List.mem_cons_of_mem q h2
    · simp only [dictSet, if_neg hq] at h
      rcases List.mem_cons.1 h with h1 | h2
      · right; rw [h1]; exact List.mem_cons_self q t
      · rcases ih h2 with h3 | h4
        · left; exact h3
        · right; exact List.mem_cons_of_mem q h4

theorem mem_dictDel (l : List (String × User)) (k : String)
    (p : String × User) (h : p ∈ dictDel l k) : p ∈ l := by
  induction l with
  | nil => simp [dictDel] at h
  | cons q t ih =>
    by_cases hq : q.1 = k
    · simp only [dictDel, if_pos hq] at h
      exact List.mem_cons_of_mem q h
    · simp only [dictDel, if_neg hq] at h
      rcases List.mem_cons.1 h with h1 | h2
      · rw [h1]; exact List.mem_cons_self q t
      · exact List.mem_cons_of_mem q (ih h2)

theorem find?_append_of_false (l1 l2 : List (String × User))
    (p : String × User → Bool) (h : ∀ x ∈ l1, p x = false) :
    List.find? p (l1 ++ l2) = List.find? p l2 := by
  rw [List.find?_append]
  have : List.find? p l1 = none := List.find?_eq_none.2 (by
    intro x hx
    rw [h x hx]
    simp)
  rw [this, Option.none_or]

theorem uuid4_inj (m n : Nat) (h : uuid4 m = uuid4 n) : m = n := by
  unfold uuid4 at h
  have h2 : List.replicate (m + 1) ('u') = List.replicate (n + 1) ('u') :=
    congrArg String.data h
  have h3 := congrArg List.length h2
  simp [List.length_replicate] at h3
  exact h3

theorem uuid4_ne_empty (n : Nat) : uuid4 n ≠ "" := by
  intro h
  have h2 : List.replicate (n + 1) ('u') = [] := congrArg String.data h
  simp [List.replicate] at h2

theorem mkChecked_ok (id name email : String) (a : Int) (c : Nat)
    (up : Option Nat) (u : User)
    (h : User.mkChecked id name email a c up = Except.ok u) :
    u = { id := id, name := name, email := email, age := a,
          created_at := c, updated_at := up } := by
  unfold User.mkChecked at h
  split at h
  · exact absurd h (by simp)
  · injection h with h2
    exact h2.symm

theorem validate_none (u : User) (h2 : pyStrip u.name ≠ "")
    (h4 : '@' ∈ u.email.data) (h5 : 0 ≤ u.age) (h6 : u.age ≤ 150) :
    User.validate u = none := by
  have h1 : u.name ≠ "" := by
    intro he
    apply h2
    rw [he]
    rfl
  have h3 : u.email ≠ "" := by
    intro he
    rw [he] at h4
    simp [String.data] at h4
  unfold User.validate
  rw [if_neg, if_neg, if_neg]
  · intro hc
    rcases hc with hc | hc
    · omega
    · omega
  · intro hc
    rcases hc with hc | hc
    · exact h3 hc
    · exact hc h4
  · intro hc
    rcases hc with hc | hc
    · exact h1 hc
    · exact h2 hc

/-- Key-shape invariant of reachable manager states: every stored key was
produced by the id supply at an index below the current counter. -/
def KeysOk (σ : CrudState) : Prop :=
  ∀ p ∈ σ.users, ∃ m, m < σ.nextId ∧ p.1 = uuid4 m

theorem keysOk_create (σ : CrudState) (n e : String) (a : Int)
    (h : KeysOk σ) : KeysOk (UserCRUD.create σ n e a).2 := by
  unfold UserCRUD.create
  cases hc : User.create (uuid4 σ.nextId) σ.clock n e a with
  | error err => exact h
  | ok u =>
    by_cases hd : σ.users.any (fun p => p.2.email == u.email) = true
    · simp only [hd, if_pos]
      exact h
    · simp only [hd, if_neg, Bool.false_eq_true, not_false_eq_true]
      intro p hp
      have hid : u.id = uuid4 σ.nextId := by
        rw [mkChecked_ok _ _ _ _ _ _ _ hc]
      rw [hid] at hp
      rcases mem_dictSet _ _ _ _ hp with h1 | h2
      · exact ⟨σ.nextId, Nat.lt_succ_self _, by rw [h1]⟩
      · obtain ⟨m, hm, he⟩ := h p h2
        exact ⟨m, Nat.lt_succ_of_lt hm, he⟩

theorem keysOk_applyUpdate (σ : CrudState) (uid : String) (u : User)
    (f : UpdateFields) (h : KeysOk σ) (hmem : ∃ v, (uid, v) ∈ σ.users) :
    KeysOk (UserCRUD.applyUpdate σ uid u f).2 := by
  unfold UserCRUD.applyUpdate
  cases hc : User.update u f σ.clock with
  | error err => exact h
  | ok u2 =>
    intro p hp
    rcases mem_dictSet _ _ _ _ hp with h1 | h2
    · obtain ⟨v, hv⟩ := hmem
      obtain ⟨m, hm, he⟩ := h (uid, v) hv
      exact ⟨m, hm, by rw [h1]; exact he⟩
    · exact h p h2

theorem keysOk_update (σ : CrudState) (uid : String) (f : UpdateFields)
    (h : KeysOk σ) : KeysOk (UserCRUD.update σ uid f).2 := by
  unfold UserCRUD.update
  cases hg : dictGet σ.users uid with
  | none => exact h
  | some u =>
    have hmem : ∃ v, (uid, v) ∈ σ.users := ⟨u, dictGet_some_mem _ _ _ hg⟩
    cases hf : f.email with
    | some e =>
      by_cases hd : σ.users.any
          (fun p => (p.1 != uid) && (p.2.email == normEmail e)) = true
      · simp only [hd, if_pos]
        exact h
      · simp only [hd, if_neg, Bool.false_eq_true, not_false_eq_true]
        exact keysOk_applyUpdate σ uid u f h hmem
    | none => exact keysOk_applyUpdate σ uid u f h hmem

theorem keysOk_delete (σ : CrudState) (uid : String) (h : KeysOk σ) :
    KeysOk (UserCRUD.delete σ uid).2 := by
  unfold UserCRUD.delete
  by_cases hd : σ.users.any (fun p => p.1 == uid) = true
  · simp only [hd, if_pos]
    intro p hp
    exact h p (mem_dictDel _ _ _ hp)
  · simp only [hd, if_neg, Bool.false_eq_true, not_false_eq_true]
    exact h

theorem reachable_keysOk (σ : CrudState) (h : Reachable σ) : KeysOk σ := by
  induction h with
  | empty => intro p hp; exact absurd hp (by simp [emptyCrud])
  | create n e a _ ih => exact keysOk_create _ n e a ih
  | update uid f _ ih => exact keysOk_update _ uid f ih
  | delete uid _ ih => exact keysOk_delete _ uid ih
  | clear _ ih => intro p hp; exact absurd hp (by simp [UserCRUD.clear])

theorem applyUpdate_error_users (σ : CrudState) (uid : String) (u : User)
    (f : UpdateFields) (err : Err)
    (h : (UserCRUD.applyUpdate σ uid u f).1 = Except.error err) :
    ((UserCRUD.applyUpdate σ uid u f).2).users = σ.users := by
  unfold UserCRUD.applyUpdate at h ⊢
  cases hc : User.update u f σ.clock with
  | error e2 => rfl
  | ok u2 =>
    rw [hc] at h
    have h2 : Except.ok (some u2) = Except.error err := h
    exact Except.noConfusion h2

theorem update_found (σ : CrudState) (uid : String) (u : User)
    (f : UpdateFields) (hu : dictGet σ.users uid = some u)
    (hf : f.email = none) :
    UserCRUD.update σ uid f = UserCRUD.applyUpdate σ uid u f := by
  unfold UserCRUD.update
  rw [hu, hf]

theorem update_found_email (σ : CrudState) (uid : String) (u : User)
    (f : UpdateFields) (e : String) (hu : dictGet σ.users uid = some u)
    (hf : f.email = some e)
    (hd : σ.users.any (fun p => (p.1 != uid) && (p.2.email == normEmail e)) = false) :
    UserCRUD.update σ uid f = UserCRUD.applyUpdate σ uid u f := by
  unfold UserCRUD.update
  rw [hu, hf]
  dsimp only
  rw [hd]
  rfl

theorem update_email_dup (σ : CrudState) (uid : String) (u : User)
    (f : UpdateFields) (e : String) (hu : dictGet σ.users uid = some u)
    (hf : f.email = some e)
    (hd : σ.users.any (fun p => (p.1 != uid) && (p.2.email == normEmail e)) = true) :
    UserCRUD.update σ uid f = (Except.error (Err.duplicateEmail (normEmail e)), σ) := by
  unfold UserCRUD.update
  rw [hu, hf]
  dsimp only
  rw [hd]
  rfl

theorem applyUpdate_ok_some (σ : CrudState) (uid : String) (u : User)
    (f : UpdateFields) (u2 : User)
    (hne : ¬ (f.name = none ∧ f.email = none ∧ f.age = none))
    (h : (UserCRUD.applyUpdate σ uid u f).1 = Except.ok (some u2)) :
    u2 = { id := u.id, name := f.name.getD u.name, email := f.email.getD u.email,
           age := f.age.getD u.age, created_at := u.created_at,
           updated_at := some σ.clock } ∧
    ((UserCRUD.applyUpdate σ uid u f).2).users = dictSet σ.users uid u2 := by
  unfold UserCRUD.applyUpdate at h ⊢
  unfold User.update at h ⊢
  rw [if_neg hne] at h ⊢
  unfold User.mkChecked at h ⊢
  cases hv : User.validate (⟨u.id, f.name.getD u.name, f.email.getD u.email,
      f.age.getD u.age, u.created_at, some σ.clock⟩ : User) with
  | some err =>
    rw [hv] at h
    have h2 : Except.error err = Except.ok (some u2) := h
    exact Except.noConfusion h2
  | none =>
    rw [hv] at h
    have h2 : Except.ok (some (⟨u.id, f.name.getD u.name, f.email.getD u.email,
        f.age.getD u.age, u.created_at, some σ.clock⟩ : User))
        = Except.ok (some u2) := h
    have h4 := Option.some.inj (Except.ok.inj h2)
    constructor
    · exact h4.symm
    · rw [← h4]

theorem create_ok_char (σ : CrudState) (n e : String) (a : Int) (u : User)
    (hc : User.create (uuid4 σ.nextId) σ.clock n e a = Except.ok u)
    (hd : σ.users.any (fun p => p.2.email == u.email) = false) :
    UserCRUD.create σ n e a = (Except.ok u,
      { σ with users := dictSet σ.users u.id u, nextId := σ.nextId + 1,
               clock := σ.clock + 1 }) := by
  unfold UserCRUD.create
  rw [hc]
  dsimp only
  rw [hd]
  rfl

theorem find?_dictSet (l : List (String × User)) (k : String) (v : User)
    (q : String × User → Bool) (hall : ∀ p ∈ l, q p = false)
    (hv : q (k, v) = true) :
    List.find? q (dictSet l k v) = some (k, v) := by
  induction l with
  | nil =>
    simp only [dictSet]
    rw [List.find?_cons_of_pos _ hv]
  | cons p t ih =>
    by_cases hp : p.1 = k
    · simp only [dictSet, if_pos hp]
      rw [List.find?_cons_of_pos _ hv]
    · simp only [dictSet, if_neg hp]
      have hpf : ¬ q p = true := by
        rw [hall p (List.mem_cons_self p t)]
        simp
      rw [List.find?_cons_of_neg _ hpf]
      exact ih (fun r hr => hall r (List.mem_cons_of_mem p hr))

/-- C1: the claim that the entity update operation re-normalizes supplied
name/email as in construction fails on the code: `User.update` stores the
supplied values verbatim, so updating with a padded name and an upper-case
email yields an entity whose name is untrimmed and whose email is not
lowercased (the repository's own `validate_fixes.py` asserts the
opposite). -/
theorem c1_update_skips_normalization :
    User.update c1User
      { name := some ("  New Name  "), email := some ("NEW@EXAMPLE.COM"), age := none } 1
      = Except.ok { id := uuid4 0, name := "  New Name  ", email := "NEW@EXAMPLE.COM",
                    age := 25, created_at := 0, updated_at := some 1 } ∧
    pyStrip ("  New Name  ") ≠ "  New Name  " ∧
    normEmail ("NEW@EXAMPLE.COM") ≠ "NEW@EXAMPLE.COM" := by
  refine ⟨by decide, by decide, by decide⟩

/-- C2: the claimed invariant (no two stored entities share a normalized
email) fails on the code: the reachable state `traceσ3`, produced by
create A a@x; update A's email to " C@X"; create B c@x, stores two
entities whose normalized emails are both c@x. -/
theorem c2_invariant_violated :
    Reachable traceσ3 ∧ ¬ (normEmails traceσ3).Nodup := by
  constructor
  · have h1 : Reachable traceσ1 := Reachable.create ("A") ("a@x") 1 Reachable.empty
    have h2 : Reachable traceσ2 :=
      Reachable.update (uuid4 0) { name := none, email := some (" C@X"), age := none } h1
    exact Reachable.create ("B") ("c@x") 2 h2
  · decide

/-- C5: the claim that a create whose email normalizes to a stored
entity's normalized email fails with DuplicateEmail is violated: in
`traceσ2` the stored entity's normalized email is c@x, yet creating a
second user with email c@x succeeds and the count becomes 2. -/
theorem c5_duplicate_create_accepted :
    (∃ p ∈ traceσ2.users, normEmail p.2.email = normEmail ("c@x")) ∧
    UserCRUD.count traceσ2 = 1 ∧
    (UserCRUD.create traceσ2 ("B") ("c@x") 2).1 = Except.ok traceUserB ∧
    UserCRUD.count (UserCRUD.create traceσ2 ("B") ("c@x") 2).2 = 2 := by
  refine ⟨by decide, by decide, by decide, by decide⟩

/-- C6: the claim that updating an entity to an email normalizing to
another stored entity's normalized email fails with DuplicateEmail is
violated: in `traceσ2b` the two stored entities are A (raw email " C@X",
normalized c@x) and B (b@x); updating B's email to "c@x" succeeds even
though it normalizes to A's normalized email. -/
theorem c6_duplicate_update_accepted :
    UserCRUD.get_by_id traceσ2b (uuid4 0) = some traceUserA2 ∧
    UserCRUD.get_by_id traceσ2b (uuid4 1) = some traceUserBb ∧
    uuid4 0 ≠ uuid4 1 ∧
    normEmail ("c@x") = normEmail traceUserA2.email ∧
    (UserCRUD.update traceσ2b (uuid4 1)
      { name := none, email := some ("c@x"), age := none }).1
      = Except.ok (some { traceUserBb with email := "c@x", updated_at := some 3 }) := by
  refine ⟨by decide, by decide, by decide, by decide, by decide⟩

/-- C7: delete on a present id returns true, removes it from
`get_by_id`/`exists`, and decrements the count, but the claim's
`get_by_email`-absence clause fails on the code: after deleting A (stored
email " C@X") from `traceσ3`, querying A's email still returns the other
stored entity B, because both normalize to c@x. -/
theorem c7_delete_divergence :
    (UserCRUD.delete traceσ3 (uuid4 0)).1 = true ∧
    UserCRUD.get_by_id traceσ3 (uuid4 0) = some traceUserA2 ∧
    UserCRUD.get_by_id c7σ (uuid4 0) = none ∧
    UserCRUD.existsId c7σ (uuid4 0) = false ∧
    UserCRUD.count traceσ3 = 2 ∧
    UserCRUD.count c7σ = 1 ∧
    UserCRUD.get_by_email c7σ traceUserA2.email = some traceUserB := by
  refine ⟨by decide, by decide, by decide, by decide, by decide, by decide, by decide⟩

/-- C3: a create or update call that returns an error (invalid field or
duplicate email) leaves the stored collection exactly as it was before the
call: no entity is inserted, replaced or removed by a failed operation. -/
theorem c3_failed_ops_preserve_collection (σ : CrudState) :
    (∀ n e a err, (UserCRUD.create σ n e a).1 = Except.error err →
      ((UserCRUD.create σ n e a).2).users = σ.users) ∧
    (∀ uid f err, (UserCRUD.update σ uid f).1 = Except.error err →
      ((UserCRUD.update σ uid f).2).users = σ.users) := by
  constructor
  · intro n e a err h
    unfold UserCRUD.create at h ⊢
    cases hc : User.create (uuid4 σ.nextId) σ.clock n e a with
    | error e2 => rfl
    | ok u =>
      rw [hc] at h
      dsimp only at h ⊢
      cases hd : σ.users.any (fun p => p.2.email == u.email) with
      | true => rfl
      | false =>
        rw [hd] at h
        have h2 : Except.ok u = Except.error err := h
        exact Except.noConfusion h2
  · intro uid f err h
    unfold UserCRUD.update at h ⊢
    cases hg : dictGet σ.users uid with
    | none => rfl
    | some u =>
      rw [hg] at h
      cases hf : f.email with
      | none =>
        rw [hf] at h
        have h3 : (UserCRUD.applyUpdate σ uid u f).1 = Except.error err := h
        exact applyUpdate_error_users σ uid u f err h3
      | some e =>
        rw [hf] at h
        dsimp only at h ⊢
        cases hd : σ.users.any (fun p => (p.1 != uid) && (p.2.email == normEmail e)) with
        | true => rfl
        | false =>
          rw [hd] at h
          have h3 : (UserCRUD.applyUpdate σ uid u f).1 = Except.error err := h
          exact applyUpdate_error_users σ uid u f err h3

/-- Witness for C3: creating a user with an empty name on a non-empty
state fails and leaves the collection as it was. -/
theorem c3_witness :
    ((UserCRUD.create wState ("") ("x@y") 5).2).users = wState.users :=
  (c3_failed_ops_preserve_collection wState).1 ("") ("x@y") 5
    (Err.invalidField ("El nombre no puede estar vacío")) (by decide)

/-- C8: updating a stored entity with no recognized fields returns the
stored entity itself (so `updated_at` is unchanged, in particular still
unset if it was unset) and leaves the stored collection unchanged. -/
theorem c8_noop_update_identity (σ : CrudState) (uid : String) (u : User)
    (hu : dictGet σ.users uid = some u) :
    (UserCRUD.update σ uid { name := none, email := none, age := none }).1
      = Except.ok (some u) ∧
    ((UserCRUD.update σ uid { name := none, email := none, age := none }).2).users
      = σ.users := by
  have hup : User.update u { name := none, email := none, age := none } σ.clock
      = Except.ok u := by
    unfold User.update
    rw [if_pos ⟨rfl, rfl, rfl⟩]
  rw [update_found σ uid u { name := none, email := none, age := none } hu rfl]
  unfold UserCRUD.applyUpdate
  rw [hup]
  exact ⟨rfl, dictSet_self_of_get σ.users uid u hu⟩

/-- Witness for C8 at the concrete single-entity state `wState`. -/
theorem c8_witness :
    (UserCRUD.update wState (uuid4 0) { name := none, email := none, age := none }).1
      = Except.ok (some wUser) ∧
    ((UserCRUD.update wState (uuid4 0) { name := none, email := none, age := none }).2).users
      = wState.users :=
  c8_noop_update_identity wState (uuid4 0) wUser (by decide)

/-- C9: a successful update supplying exactly one recognized field (age,
name, or email) produces, and stores under the same id, an entity that
differs from the original only in that field and in `updated_at`, which is
set to the current time; id, `created_at` and the other fields keep their
previous values. -/
theorem c9_single_field_update_frame (σ : CrudState) (uid : String) (u : User)
    (hu : dictGet σ.users uid = some u) :
    (∀ a u2, (UserCRUD.update σ uid { name := none, email := none, age := some a }).1
        = Except.ok (some u2) →
      u2 = { u with age := a, updated_at := some σ.clock } ∧
      dictGet ((UserCRUD.update σ uid
        { name := none, email := none, age := some a }).2).users uid = some u2) ∧
    (∀ nm u2, (UserCRUD.update σ uid { name := some nm, email := none, age := none }).1
        = Except.ok (some u2) →
      u2 = { u with name := nm, updated_at := some σ.clock } ∧
      dictGet ((UserCRUD.update σ uid
        { name := some nm, email := none, age := none }).2).users uid = some u2) ∧
    (∀ e u2, (UserCRUD.update σ uid { name := none, email := some e, age := none }).1
        = Except.ok (some u2) →
      u2 = { u with email := e, updated_at := some σ.clock } ∧
      dictGet ((UserCRUD.update σ uid
        { name := none, email := some e, age := none }).2).users uid = some u2) := by
  refine ⟨?_, ?_, ?_⟩
  · intro a u2 h
    rw [update_found σ uid u { name := none, email := none, age := some a } hu rfl] at h ⊢
    obtain ⟨h1, h2⟩ := applyUpdate_ok_some σ uid u _ u2 (by simp) h
    constructor
    · exact h1
    · rw [h2]
      exact dictGet_dictSet_self σ.users uid u2
  · intro nm u2 h
    rw [update_found σ uid u { name := some nm, email := none, age := none } hu rfl] at h ⊢
    obtain ⟨h1, h2⟩ := applyUpdate_ok_some σ uid u _ u2 (by simp) h
    constructor
    · exact h1
    · rw [h2]
      exact dictGet_dictSet_self σ.users uid u2
  · intro e u2 h
    cases hd : σ.users.any (fun p => (p.1 != uid) && (p.2.email == normEmail e)) with
    | true =>
      rw [update_email_dup σ uid u { name := none, email := some e, age := none }
        e hu rfl hd] at h
      have h2 : Except.error (Err.duplicateEmail (normEmail e)) = Except.ok (some u2) := h
      exact Except.noConfusion h2
    | false =>
      rw [update_found_email σ uid u { name := none, email := some e, age := none }
        e hu rfl hd] at h ⊢
      obtain ⟨h1, h2⟩ := applyUpdate_ok_some σ uid u _ u2 (by simp) h
      constructor
      · exact h1
      · rw [h2]
        exact dictGet_dictSet_self σ.users uid u2

/-- Witness for C9: updating only the age of the stored `wUser` changes
only the age and `updated_at` of the stored entity. -/
theorem c9_witness :
    dictGet ((UserCRUD.update wState (uuid4 0)
      { name := none, email := none, age := some 7 }).2).users (uuid4 0)
      = some { wUser with age := 7, updated_at := some 5 } :=
  ((c9_single_field_update_frame wState (uuid4 0) wUser (by decide)).1 7
    { wUser with age := 7, updated_at := some 5 } (by decide)).2

/-- C10: `exists` returns true exactly when `get_by_id` returns an entity,
and `count` equals the length of the sequence returned by `get_all`. -/
theorem c10_read_consistency (σ : CrudState) (uid : String) :
    (UserCRUD.existsId σ uid = true ↔ (UserCRUD.get_by_id σ uid).isSome = true) ∧
    UserCRUD.count σ = (UserCRUD.get_all σ).length := by
  constructor
  · unfold UserCRUD.existsId UserCRUD.get_by_id
    induction σ.users with
    | nil => simp [dictGet]
    | cons p t ih =>
      by_cases hp : p.1 = uid
      · simp [dictGet, hp]
      · simp [dictGet, hp, ih]
  · unfold UserCRUD.count UserCRUD.get_all
    rw [List.length_map]

theorem beq_email_false (l : List (String × User)) (email : String)
    (hdup : ∀ p ∈ l, normEmail p.2.email ≠ normEmail email) :
    ∀ p ∈ l, (p.2.email == normEmail email) = false := by
  intro p hp
  cases hbe : (p.2.email == normEmail email) with
  | false => rfl
  | true =>
    exfalso
    apply hdup p hp
    rw [eq_of_beq hbe, normEmail_idem]

/-- C4: on any state storing no entity with the candidate's normalized
email, a create with valid inputs succeeds and the created entity — with
trimmed name, normalized email, the given age, a non-empty id, a set
`created_at` and unset `updated_at` — is returned afterwards both by
`get_by_id` on its id and by `get_by_email` on any query that normalizes
to its email. -/
theorem c4_create_roundtrip (σ : CrudState) (name email q : String) (age : Int)
    (hn : pyStrip name ≠ "") (he : '@' ∈ email.data)
    (ha1 : 0 ≤ age) (ha2 : age ≤ 150)
    (hdup : ∀ p ∈ σ.users, normEmail p.2.email ≠ normEmail email)
    (hq : normEmail q = normEmail email) :
    ∃ u, (UserCRUD.create σ name email age).1 = Except.ok u ∧
      u.name = pyStrip name ∧ u.email = normEmail email ∧ u.age = age ∧
      u.id ≠ "" ∧ u.created_at = σ.clock ∧ u.updated_at = none ∧
      UserCRUD.get_by_id (UserCRUD.create σ name email age).2 u.id = some u ∧
      UserCRUD.get_by_email (UserCRUD.create σ name email age).2 q = some u := by
  have hval : User.validate (⟨uuid4 σ.nextId, pyStrip name, normEmail email,
      age, σ.clock, none⟩ : User) = none := by
    apply validate_none
    · show pyStrip (pyStrip name) ≠ ""
      rw [pyStrip_idem]
      exact hn
    · exact at_mem_normEmail email he
    · exact ha1
    · exact ha2
  have hc : User.create (uuid4 σ.nextId) σ.clock name email age
      = Except.ok (⟨uuid4 σ.nextId, pyStrip name, normEmail email,
          age, σ.clock, none⟩ : User) := by
    unfold User.create User.mkChecked
    rw [hval]
  have hdupb : σ.users.any (fun p => p.2.email == normEmail email) = false := by
    cases hany : σ.users.any (fun p => p.2.email == normEmail email) with
    | false => rfl
    | true =>
      exfalso
      obtain ⟨p, hp, hbe⟩ := List.any_eq_true.1 hany
      have hfalse := beq_email_false σ.users email hdup p hp
      rw [hfalse] at hbe
      exact Bool.noConfusion hbe
  have hcr := create_ok_char σ name email age
    (⟨uuid4 σ.nextId, pyStrip name, normEmail email, age, σ.clock, none⟩ : User)
    hc hdupb
  rw [hcr]
  refine ⟨⟨uuid4 σ.nextId, pyStrip name, normEmail email, age, σ.clock, none⟩,
    rfl, rfl, rfl, rfl, uuid4_ne_empty σ.nextId, rfl, rfl, ?_, ?_⟩
  · exact dictGet_dictSet_self σ.users (uuid4 σ.nextId)
      (⟨uuid4 σ.nextId, pyStrip name, normEmail email, age, σ.clock, none⟩ : User)
  · have hall : ∀ p ∈ σ.users, ((fun p => p.2.email == normEmail q) p) = false := by
      intro p hp
      show (p.2.email == normEmail q) = false
      rw [hq]
      exact beq_email_false σ.users email hdup p hp
    have hv : ((fun p => p.2.email == normEmail q)
        ((uuid4 σ.nextId, ⟨uuid4 σ.nextId, pyStrip name, normEmail email, age,
          σ.clock, none⟩) : String × User)) = true := by
      show (normEmail email == normEmail q) = true
      rw [hq]
      exact beq_self_eq_true (normEmail email)
    have hfind := find?_dictSet σ.users (uuid4 σ.nextId)
      (⟨uuid4 σ.nextId, pyStrip name, normEmail email, age, σ.clock, none⟩ : User)
      (fun p => p.2.email == normEmail q) hall hv
    unfold UserCRUD.get_by_email
    dsimp only
    rw [hfind]
    rfl

/-- Witness for C4: creating Juan with a padded mixed-case email on the
empty manager and reading it back through both lookups. -/
theorem c4_witness :
    ∃ u, (UserCRUD.create emptyCrud ("Juan") (" JUAN@Example.com") 30).1
        = Except.ok u ∧
      u.name = pyStrip ("Juan") ∧ u.email = normEmail (" JUAN@Example.com") ∧
      u.age = 30 ∧ u.id ≠ "" ∧ u.created_at = emptyCrud.clock ∧
      u.updated_at = none ∧
      UserCRUD.get_by_id
        (UserCRUD.create emptyCrud ("Juan") (" JUAN@Example.com") 30).2 u.id
        = some u ∧
      UserCRUD.get_by_email
        (UserCRUD.create emptyCrud ("Juan") (" JUAN@Example.com") 30).2
        ("juan@example.com") = some u :=
  c4_create_roundtrip emptyCrud ("Juan") (" JUAN@Example.com") ("juan@example.com")
    30 (by decide) (by decide) (by decide) (by decide) (by decide) (by decide)
